import Mathlib

/-!
Shallow embedding of the r3status relay (`src/lib.rs`) together with the
parts of its serialization dependency (`rustc_serialize::json`) that the
relay exercises.  Byte streams and string buffers are modelled as
`List Char` (the source reads the subprocess output as UTF-8 text);
machine integers (`usize`) are modelled as `Nat`, since none of the
verified operations perform arithmetic where the word size could matter.
I/O effects are modelled by explicit state passing on a record holding
the output sink contents, the read buffer, and the remaining input
stream; a Rust panic (from `.unwrap()`) is a distinguished outcome.
-/

namespace R3

/-! ### Character and digit utilities -/

/-- Decimal digit to character, as the standard library's integer
formatting produces it. -/
def digitChar : Nat → Char
  | 0 => '0' | 1 => '1' | 2 => '2' | 3 => '3' | 4 => '4'
  | 5 => '5' | 6 => '6' | 7 => '7' | 8 => '8' | 9 => '9'
  | _ => '*'

/-- Numeric value of a decimal digit character. -/
def digitVal (c : Char) : Nat := c.toNat - 48

/-- Worker for `natChars`, recursing on a fuel bound so that the
definition computes by reduction; the fuel never runs out because a
number has at most `n + 1` decimal digits. -/
def natCharsCore : Nat → Nat → List Char
  | 0, _ => []
  | fuel+1, n =>
    if n < 10 then [digitChar n]
    else natCharsCore fuel (n / 10) ++ [digitChar (n % 10)]

/-- Decimal representation of a `Nat`, most significant digit first;
models the output of Rust's `u64` `Display` used by the JSON encoder. -/
def natChars (n : Nat) : List Char := natCharsCore (n + 1) n

/-- Lower-case hexadecimal digit character. -/
def hexDigitChar : Nat → Char
  | 0 => '0' | 1 => '1' | 2 => '2' | 3 => '3' | 4 => '4'
  | 5 => '5' | 6 => '6' | 7 => '7' | 8 => '8' | 9 => '9'
  | 10 => 'a' | 11 => 'b' | 12 => 'c' | 13 => 'd' | 14 => 'e' | 15 => 'f'
  | _ => '*'

/-! ### JSON string escaping (rustc_serialize `escape_str`) -/

/-- Escape one character the way rustc_serialize's compact JSON writer
does: quote and backslash get a backslash escape, the usual control
characters get their short forms, remaining control characters and
DEL get a `u00xx` escape, and everything else passes through. -/
def escapeChar (c : Char) : List Char :=
  if c = '"' then ['\\', '"']
  else if c = '\\' then ['\\', '\\']
  else if c = '\x08' then ['\\', 'b']
  else if c = '\t' then ['\\', 't']
  else if c = '\n' then ['\\', 'n']
  else if c = '\x0c' then ['\\', 'f']
  else if c = '\x0d' then ['\\', 'r']
  else if c.toNat < 32 || c.toNat == 127 then
    ['\\', 'u', '0', '0', hexDigitChar (c.toNat / 16), hexDigitChar (c.toNat % 16)]
  else [c]

/-- A JSON string literal: quotes around the escaped characters. -/
def jsonStrLit (s : List Char) : List Char :=
  '"' :: s.flatMap escapeChar ++ ['"']

/-! ### JSON values (rustc_serialize `Json`) -/

/-- JSON values as built by rustc_serialize's parser.  Integral numbers
are collapsed into one `Int`-valued constructor (`U64`/`I64`); floating
point numbers never arise in the relay's traffic and are not modelled
(the parser below rejects fractional syntax, and decoding a float to an
integer or bool field fails in the original library as well). -/
inductive Json where
  | null
  | bool (b : Bool)
  | num (n : Int)
  | str (s : List Char)
  | arr (elems : List Json)
  | obj (fields : List (List Char × Json))

/-! ### JSON parsing (rustc_serialize `Json::from_str`) -/

/-- JSON whitespace. -/
def isWs (c : Char) : Bool :=
  c = ' ' || c = '\t' || c = '\n' || c = '\x0d'

/-- Drop leading JSON whitespace. -/
def skipWs : List Char → List Char
  | [] => []
  | c :: cs => if isWs c then skipWs cs else c :: cs

/-- Accumulate decimal digits; stops at the first non-digit. -/
def parseDigits : List Char → Nat → Nat × List Char
  | [], acc => (acc, [])
  | c :: cs, acc =>
    if c.isDigit then parseDigits cs (acc * 10 + digitVal c) else (acc, c :: cs)

/-- Reject a fractional part or exponent after the integer digits:
those produce floats in the original parser, which are out of the
modelled fragment. -/
def checkNoFrac (n : Nat) (rest : List Char) : Option (Nat × List Char) :=
  match rest with
  | d :: _ => if d = '.' || d = 'e' || d = 'E' then none else some (n, rest)
  | [] => some (n, rest)

/-- Parse an unsigned JSON integer: at least one digit, no redundant
leading zero (the original parser raises `InvalidNumber` there). -/
def parseUNumber : List Char → Option (Nat × List Char)
  | [] => none
  | c :: cs =>
    if c = '0' then
      match cs with
      | d :: _ => if d.isDigit then none else checkNoFrac 0 cs
      | [] => some (0, [])
    else if c.isDigit then
      let p := parseDigits cs (digitVal c)
      checkNoFrac p.1 p.2
    else none

/-- Parse a JSON integer with optional minus sign. -/
def parseNumber (s : List Char) : Option (Json × List Char) :=
  match s with
  | '-' :: rest =>
    match parseUNumber rest with
    | some (n, r) => some (.num (-(n : Int)), r)
    | none => none
  | _ =>
    match parseUNumber s with
    | some (n, r) => some (.num (n : Int), r)
    | none => none

/-- Resolve a backslash escape inside a JSON string literal.  Unicode
escapes are not modelled (never produced nor consumed by the relay). -/
def unescapeChar (c : Char) : Option Char :=
  if c = '"' then some '"'
  else if c = '\\' then some '\\'
  else if c = '/' then some '/'
  else if c = 'b' then some '\x08'
  else if c = 'f' then some '\x0c'
  else if c = 'n' then some '\n'
  else if c = 'r' then some '\x0d'
  else if c = 't' then some '\t'
  else none

/-- Parse the body of a JSON string literal after the opening quote,
returning the decoded characters and the remaining input. -/
def parseStringBody : List Char → List Char → Option (List Char × List Char)
  | [], _ => none
  | c :: cs, acc =>
    if c = '"' then some (acc.reverse, cs)
    else if c = '\\' then
      match cs with
      | e :: cs' =>
        match unescapeChar e with
        | some ch => parseStringBody cs' (ch :: acc)
        | none => none
      | [] => none
    else parseStringBody cs (c :: acc)

/-- Insert a key/value pair, replacing an existing binding of the same
key; models `BTreeMap::insert` ("last duplicate wins"). -/
def insertKV (k : List Char) (v : Json) : List (List Char × Json) → List (List Char × Json)
  | [] => [(k, v)]
  | (k', v') :: rest => if k' = k then (k, v) :: rest else (k', v') :: insertKV k v rest

mutual

/-- Recursive-descent JSON value parser with a fuel bound ensuring
termination (the fuel is a modelling artifact; `jsonFromStr` supplies
more than any input can consume). -/
def parseValue : Nat → List Char → Option (Json × List Char)
  | 0, _ => none
  | fuel+1, s =>
    match skipWs s with
    | [] => none
    | c :: cs =>
      if c = '\x7b' then
        match skipWs cs with
        | '\x7d' :: rest => some (.obj [], rest)
        | _ => parseObjItems fuel cs []
      else if c = '[' then
        match skipWs cs with
        | ']' :: rest => some (.arr [], rest)
        | _ => parseArrItems fuel cs []
      else if c = '"' then
        match parseStringBody cs [] with
        | some (lit, rest) => some (.str lit, rest)
        | none => none
      else if c = 't' then
        match cs with
        | 'r' :: 'u' :: 'e' :: rest => some (.bool true, rest)
        | _ => none
      else if c = 'f' then
        match cs with
        | 'a' :: 'l' :: 's' :: 'e' :: rest => some (.bool false, rest)
        | _ => none
      else if c = 'n' then
        match cs with
        | 'u' :: 'l' :: 'l' :: rest => some (.null, rest)
        | _ => none
      else parseNumber (c :: cs)

/-- Parse the members of a JSON object after the opening brace or a
separating comma: a quoted key, a colon, a value, then either another
member or the closing brace. -/
def parseObjItems : Nat → List Char → List (List Char × Json) → Option (Json × List Char)
  | 0, _, _ => none
  | fuel+1, s, acc =>
    match skipWs s with
    | '"' :: cs =>
      match parseStringBody cs [] with
      | some (key, rest1) =>
        match skipWs rest1 with
        | ':' :: rest2 =>
          match parseValue fuel rest2 with
          | some (v, rest3) =>
            match skipWs rest3 with
            | ',' :: rest4 => parseObjItems fuel rest4 (insertKV key v acc)
            | '\x7d' :: rest4 => some (.obj (insertKV key v acc), rest4)
            | _ => none
          | none => none
        | _ => none
      | none => none
    | _ => none

/-- Parse the elements of a JSON array after the opening bracket or a
separating comma. -/
def parseArrItems : Nat → List Char → List Json → Option (Json × List Char)
  | 0, _, _ => none
  | fuel+1, s, acc =>
    match parseValue fuel s with
    | some (v, rest) =>
      match skipWs rest with
      | ',' :: rest2 => parseArrItems fuel rest2 (acc ++ [v])
      | ']' :: rest2 => some (.arr (acc ++ [v]), rest2)
      | _ => none
    | none => none

end

/-- Parse a complete JSON document: one value, then only whitespace to
the end of input (`Json::from_str` raises `TrailingCharacters`
otherwise). -/
def jsonFromStr (s : List Char) : Option Json :=
  match parseValue (s.length + 16) s with
  | some (j, rest) =>
    match skipWs rest with
    | [] => some j
    | _ => none
  | none => none

/-! ### Typed decoding (derived `RustcDecodable` over the json `Decoder`) -/

/-- Decode errors of the json `Decoder` (`DecodeError`): a parse
failure from `Json::from_str`, an `ExpectedError`, a
`MissingFieldError`, or an `ApplicationError` raised via `d.error`. -/
inductive DecErr where
  | parseFailed
  | expected (what : String) (got : Json)
  | missingField (name : String)
  | application (msg : List Char)

/-- First binding of a key in an object's field list. -/
def lookupKV (k : List Char) : List (List Char × Json) → Option Json
  | [] => none
  | (k', v) :: rest => if k' = k then some v else lookupKV k rest

/-- Models the decoder's `read_struct_field`: a present field is
decoded by `f`; a missing field is decoded as `Json::Null` (so an
`Option` field becomes `None`) and any failure there is reported as
`MissingFieldError`. -/
def readStructField {α : Type} (name : String) (fs : List (List Char × Json))
    (f : Json → Except DecErr α) : Except DecErr α :=
  match lookupKV name.data fs with
  | some j => f j
  | none =>
    match f Json.null with
    | .ok a => .ok a
    | .error _ => .error (.missingField name)

/-- Models `str::parse::<usize>` as used by the decoder's numeric
string fallback: an optional plus sign followed by at least one digit. -/
def digitsToNatAux : List Char → Nat → Option Nat
  | [], acc => some acc
  | c :: cs, acc =>
    if c.isDigit then digitsToNatAux cs (acc * 10 + digitVal c) else none

/-- Digits-only string to `Nat`; empty input fails. -/
def rustParseUsize (s : List Char) : Option Nat :=
  match s with
  | [] => none
  | '+' :: rest =>
    match rest with
    | [] => none
    | _ => digitsToNatAux rest 0
  | _ => digitsToNatAux s 0

/-- Models the decoder's `read_u64`/`read_usize`: an integral JSON
number, or a JSON string holding one (the library's numeric-key
workaround); anything else is an `ExpectedError`.  Negative numbers
are rejected (`usize` cannot hold them). -/
def jsonDecodeUsize : Json → Except DecErr Nat
  | .num i => if 0 ≤ i then .ok i.toNat else .error (.expected "Integer" (.num i))
  | .str s =>
    match rustParseUsize s with
    | some n => .ok n
    | none => .error (.expected "Number" (.str s))
  | j => .error (.expected "Integer" j)

/-- Models the decoder's `read_bool`: only a JSON boolean. -/
def jsonDecodeBool : Json → Except DecErr Bool
  | .bool b => .ok b
  | j => .error (.expected "Boolean" j)

/-- Models the decoder's `read_option` under the derived `Option`
instance: `Json::Null` decodes to `none`, anything else decodes the
inner value. -/
def jsonDecodeOpt {α : Type} (f : Json → Except DecErr α) : Json → Except DecErr (Option α)
  | .null => .ok none
  | j =>
    match f j with
    | .ok a => .ok (some a)
    | .error e => .error e

/-! ### The `Alignment` enumeration (manual impls in `src/lib.rs`) -/

/-- The relay's alignment enumeration. -/
inductive Alignment where
  | Right
  | Left
  | Center
deriving DecidableEq

/-- The wire token of each alignment variant. -/
def Alignment.token : Alignment → List Char
  | .Right => "right".data
  | .Left => "left".data
  | .Center => "center".data

/-- Embeds `impl Decodable for Alignment`: read a JSON string and match
it against the three tokens; any other token is reported via
`d.error` with a message naming it. -/
def Alignment.decode (j : Json) : Except DecErr Alignment :=
  match j with
  | .str s =>
    if s = "right".data then .ok .Right
    else if s = "left".data then .ok .Left
    else if s = "center".data then .ok .Center
    else .error (.application ("`".data ++ s ++ "` is not a valid alignment".data))
  | _ => .error (.expected "String" j)

/-- Embeds `impl Encodable for Alignment`: `emit_str` of the token. -/
def Alignment.encode (a : Alignment) : Json := .str a.token

/-! ### `Header` and `Block` with their derived codecs -/

/-- The protocol header struct, fields in declaration order. -/
structure Header where
  version : Nat
  stop_signal : Option Nat
  cont_signal : Option Nat
  click_events : Option Bool
deriving DecidableEq

/-- Embeds `impl Default for Header`. -/
def defaultHeader : Header :=
  { version := 1, stop_signal := none, cont_signal := none, click_events := none }

/-- A status block; the `instance` field is spelled `instance_` because
`instance` is a reserved word here. -/
structure Block where
  full_text : List Char
  short_text : Option (List Char)
  color : Option (List Char)
  min_width : Option Nat
  align : Option Alignment
  urgent : Option Bool
  name : Option (List Char)
  instance_ : Option (List Char)
  separator : Option Bool
  separator_block_width : Option Nat
deriving DecidableEq

/-- Embeds `impl Default for Block`: empty text, all options absent. -/
def defaultBlock : Block :=
  { full_text := [], short_text := none, color := none, min_width := none
    align := none, urgent := none, name := none, instance_ := none
    separator := none, separator_block_width := none }

/-- Compact encoding of an optional integer: `null` when absent. -/
def encodeOptNat : Option Nat → List Char
  | none => "null".data
  | some n => natChars n

/-- Compact encoding of an optional boolean: `null` when absent. -/
def encodeOptBool : Option Bool → List Char
  | none => "null".data
  | some true => "true".data
  | some false => "false".data

/-- Compact encoding of an optional string: `null` when absent. -/
def encodeOptStr : Option (List Char) → List Char
  | none => "null".data
  | some s => jsonStrLit s

/-- Compact encoding of an optional alignment: `null` when absent. -/
def encodeOptAlign : Option Alignment → List Char
  | none => "null".data
  | some a => jsonStrLit a.token

/-- Embeds `json::encode::<Header>` under the derived `RustcEncodable`
and the compact writer: an object with the four fields in declaration
order, absent options emitted as `null`. -/
def encodeHeader (h : Header) : List Char :=
  "\x7b\"version\":".data ++ natChars h.version
    ++ ",\"stop_signal\":".data ++ encodeOptNat h.stop_signal
    ++ ",\"cont_signal\":".data ++ encodeOptNat h.cont_signal
    ++ ",\"click_events\":".data ++ encodeOptBool h.click_events
    ++ "\x7d".data

/-- Embeds `json::encode::<Block>` under the derived `RustcEncodable`:
the ten fields in declaration order, absent options emitted as `null`. -/
def encodeBlock (b : Block) : List Char :=
  "\x7b\"full_text\":".data ++ jsonStrLit b.full_text
    ++ ",\"short_text\":".data ++ encodeOptStr b.short_text
    ++ ",\"color\":".data ++ encodeOptStr b.color
    ++ ",\"min_width\":".data ++ encodeOptNat b.min_width
    ++ ",\"align\":".data ++ encodeOptAlign b.align
    ++ ",\"urgent\":".data ++ encodeOptBool b.urgent
    ++ ",\"name\":".data ++ encodeOptStr b.name
    ++ ",\"instance\":".data ++ encodeOptStr b.instance_
    ++ ",\"separator\":".data ++ encodeOptBool b.separator
    ++ ",\"separator_block_width\":".data ++ encodeOptNat b.separator_block_width
    ++ "\x7d".data

/-- Embeds `json::encode::<Vec<Block>>`: a JSON array of the encoded
blocks separated by commas. -/
def encodeBlockVec (bs : List Block) : List Char :=
  '[' :: (List.intersperse ",".data (bs.map encodeBlock)).flatten ++ [']']

/-- Embeds the derived `RustcDecodable` for `Header`: expects an
object, reads the four fields in declaration order (extra fields are
ignored, as the decoder discards the leftover object). -/
def jsonDecodeHeader : Json → Except DecErr Header
  | .obj fs => do
    let v ← readStructField "version" fs jsonDecodeUsize
    let ss ← readStructField "stop_signal" fs (jsonDecodeOpt jsonDecodeUsize)
    let cs ← readStructField "cont_signal" fs (jsonDecodeOpt jsonDecodeUsize)
    let ce ← readStructField "click_events" fs (jsonDecodeOpt jsonDecodeBool)
    return { version := v, stop_signal := ss, cont_signal := cs, click_events := ce }
  | j => .error (.expected "Object" j)

/-- Embeds `json::decode::<Header>` on a raw line: parse the JSON
document, then run the typed decoder. -/
def headerDecodeStr (s : List Char) : Except DecErr Header :=
  match jsonFromStr s with
  | none => .error .parseFailed
  | some j => jsonDecodeHeader j

/-! ### The relay state and its operations -/

/-- I/O errors surfaced by the relay's operations. -/
inductive IOErr where
  | other (msg : String)
deriving DecidableEq

/-- The relay state: `output` models everything written to the
process's standard output (both the line writer and the diagnostic
`println` calls target it), `buffer` is the reusable line buffer, and
`reader` is the remaining captured subprocess output (absent until a
reader is attached). -/
structure R3Status where
  config_file : Option String
  status_line : List Block
  reader : Option (List Char)
  output : List Char
  buffer : List Char
deriving DecidableEq

/-- Embeds `R3Status::new`. -/
def R3Status.new : R3Status :=
  { config_file := none, status_line := [], reader := none, output := [], buffer := [] }

/-- Outcome of a relay operation: a returned value with the updated
state, a returned `Err`, or a Rust panic (the state records what had
been written when the panic fired). -/
inductive Res (α : Type) where
  | ok (a : α) (st : R3Status)
  | err (e : IOErr) (st : R3Status)
  | panicked (st : R3Status)
deriving DecidableEq

/-- The bytes `read_until` consumes for one line: everything up to and
including the first newline, or the whole rest of the stream if no
newline remains (at end of stream this is empty and the read count is
zero). -/
def takeLine : List Char → List Char
  | [] => []
  | c :: cs => if c = '\n' then ['\n'] else c :: takeLine cs

/-- The stream remainder after `takeLine`. -/
def dropLine : List Char → List Char
  | [] => []
  | c :: cs => if c = '\n' then cs else dropLine cs

/-- Whether the buffer ends with a newline (`str::ends_with("\n")`). -/
def endsWithNL (l : List Char) : Bool :=
  match l.getLast? with
  | some c => c = '\n'
  | none => false

/-- Embeds `R3Status::clear`. -/
def R3Status.clear (st : R3Status) : R3Status := { st with buffer := [] }

/-- Embeds `R3Status::read_line`: with a reader attached, append one
line's bytes (newline included when present) to the buffer and return
the count; with no reader, return the `Other`-kind error.  Reading
from the in-memory stream cannot itself fault, matching `read_until`'s
behavior of returning `Ok(0)` at end of stream. -/
def R3Status.read_line (st : R3Status) : Res Nat :=
  match st.reader with
  | some s =>
    .ok (takeLine s).length
      { st with buffer := st.buffer ++ takeLine s, reader := some (dropLine s) }
  | none => .err (.other "A reader has not been set for the process") st

/-- Embeds `R3Status::flush_buffer`: write the buffer, appending a
newline exactly when it does not already end in one, then clear it. -/
def R3Status.flush_buffer (st : R3Status) : Res Unit :=
  if endsWithNL st.buffer then
    .ok () { st with output := st.output ++ st.buffer, buffer := [] }
  else
    .ok () { st with output := st.output ++ st.buffer ++ ['\n'], buffer := [] }

/-- Embeds `R3Status::write_str`: raw write, no newline handling. -/
def R3Status.write_str (st : R3Status) (line : List Char) : Res Unit :=
  .ok () { st with output := st.output ++ line }

/-- Embeds `R3Status::write_msg`: overwrite the buffer with the
encoding of a one-element block vector carrying `msg` as `full_text`
of an otherwise default block, flush it, then write a bare comma. -/
def R3Status.write_msg (st : R3Status) (msg : List Char) : Res Unit :=
  let st1 := { st with buffer := encodeBlockVec [{ defaultBlock with full_text := msg }] }
  match st1.flush_buffer with
  | .ok _ st2 => st2.write_str ",".data
  | .err e s => .err e s
  | .panicked s => .panicked s

/-- Embeds `R3Status::pipe_header`: read one line, decode it as a
`Header` — the source calls `.unwrap()` on the decode result, so a
decode failure is a panic, not a returned error — force
`click_events = Some(true)`, re-encode into the buffer, and flush. -/
def R3Status.pipe_header (st : R3Status) : Res Unit :=
  match st.read_line with
  | .ok _ st1 =>
    match headerDecodeStr st1.buffer with
    | .error _ => .panicked st1
    | .ok h =>
      R3Status.flush_buffer { st1 with buffer := encodeHeader { h with click_events := some true } }
  | .err e s => .err e s
  | .panicked s => .panicked s

/-- Embeds `R3Status::pipe_line`: read one line, flush it verbatim. -/
def R3Status.pipe_line (st : R3Status) : Res Unit :=
  match st.read_line with
  | .ok _ st1 => st1.flush_buffer
  | .err e s => .err e s
  | .panicked s => .panicked s

/-- Embeds `R3Status::config_file` (the setter; named apart from the
field projection). -/
def R3Status.set_config_file (st : R3Status) (config : String) : R3Status :=
  { st with config_file := some config }

/-! ### Process launching and the run loop -/

/-- Rust `process::Stdio` configurations used by the launcher. -/
inductive StdioSpec where
  | null
  | piped
  | inherit
deriving DecidableEq

/-- The constructed subprocess command: program, arguments, and the
three stream configurations. -/
structure Command where
  program : String
  args : List String
  stdin : StdioSpec
  stdout : StdioSpec
  stderr : StdioSpec
deriving DecidableEq

/-- Embeds `spawn_i3status`'s command construction: the `i3status`
program with no arguments, stdin discarded, stdout piped, stderr
inherited.  The `config` parameter is ignored exactly as the source's
`_config` parameter is; the OS-level spawn effect itself is supplied
to `R3Status.run` as a function argument. -/
def spawn_i3status (_config : Option String) : Command :=
  { program := "i3status", args := [], stdin := .null, stdout := .piped, stderr := .inherit }

instance : DecidableEq (Except IOErr Unit) := fun a b =>
  match a, b with
  | .ok (), .ok () => isTrue rfl
  | .error e, .error e' =>
    if h : e = e' then isTrue (by rw [h]) else isFalse (by intro hc; cases hc; exact h rfl)
  | .ok _, .error _ => isFalse (by intro hc; cases hc)
  | .error _, .ok _ => isFalse (by intro hc; cases hc)

/-- A spawned child handle: the captured stdout contents when capture
succeeded, and the outcome `kill` would report. -/
structure Child where
  stdout : Option (List Char)
  killResult : Except IOErr Unit
deriving DecidableEq

/-- A `println!` to the process's standard output. -/
def R3Status.printlnOut (st : R3Status) (s : String) : R3Status :=
  { st with output := st.output ++ s.data ++ ['\n'] }

/-- Outcome of `R3Status::run`, whose steady-state loop may still be
running when the observation fuel runs out. -/
inductive RunRes where
  | ok (st : R3Status)
  | err (e : IOErr) (st : R3Status)
  | panicked (st : R3Status)
  | spinning (st : R3Status)
deriving DecidableEq

/-- The steady-state `loop` of `run`, observed for `fuel` iterations:
each iteration is one `pipe_line`, an error or panic ends the loop,
and exhausting the fuel reports the loop as still spinning (the
source's loop has no success exit). -/
def runLoop : Nat → R3Status → RunRes
  | 0, st => .spinning st
  | fuel+1, st =>
    match st.pipe_line with
    | .ok _ st' => runLoop fuel st'
    | .err e s => .err e s
    | .panicked s => .panicked s

/-- Embeds `R3Status::run`: spawn (the OS effect `os` applied to the
constructed command), and on success either attach the reader and
drive header, array-open, first element and the steady-state loop, or
— when the stdout handle is unavailable — print the two diagnostics,
attempt the kill, and return the kill's own result. -/
def R3Status.run (st : R3Status) (os : Command → Except IOErr Child) (fuel : Nat) : RunRes :=
  match os (spawn_i3status st.config_file) with
  | .error e => .err e st
  | .ok child =>
    match child.stdout with
    | some out =>
      let st1 := { st with reader := some out }
      match st1.pipe_header with
      | .err e s => .err e s
      | .panicked s => .panicked s
      | .ok _ s2 =>
        match s2.pipe_line with
        | .err e s => .err e s
        | .panicked s => .panicked s
        | .ok _ s3 =>
          match s3.pipe_line with
          | .err e s => .err e s
          | .panicked s => .panicked s
          | .ok _ s4 => runLoop fuel s4
    | none =>
      let st1 := st.printlnOut "Failed to aquire handle to i3status' `stdout`"
      let st2 := st1.printlnOut "Killling i3status..."
      match child.killResult with
      | .ok _ => .ok st2
      | .error e => .err e st2

/-! ### Derived notions used to state the stream-forwarding claims -/

/-- Iterate `pipe_line` a fixed number of times, propagating failure. -/
def pipeLines : Nat → R3Status → Res Unit
  | 0, st => .ok () st
  | n+1, st =>
    match st.pipe_line with
    | .ok _ st' => pipeLines n st'
    | .err e s => .err e s
    | .panicked s => .panicked s

/-- Split a stream into the successive chunks `read_until` yields:
each chunk ends with the newline that delimits it, except a final
chunk cut off by end of stream. -/
def lineSplit : List Char → List (List Char)
  | [] => []
  | c :: cs => takeLine (c :: cs) :: lineSplit (dropLine (c :: cs))
termination_by s => s.length
decreasing_by
  have h : ∀ l : List Char, (dropLine l).length ≤ l.length := by
    intro l
    induction l with
    | nil => simp [dropLine]
    | cons c cs ih =>
      simp only [dropLine]
      split
      · simp
      · simp only [List.length_cons]; omega
  simp only [dropLine]
  split
  · simp
  · have := h cs
    simp only [List.length_cons]
    omega

/-- The newline normalization `flush_buffer` applies to one record. -/
def normalizeLine (l : List Char) : List Char :=
  if endsWithNL l then l else l ++ ['\n']

/-- The JSON value rustc_serialize's parser builds for an optional
integer field emitted by the encoder (`null` or the number). -/
def optNatJson : Option Nat → Json
  | none => .null
  | some n => .num (n : Int)

/-- The JSON value parsed back from an optional boolean field. -/
def optBoolJson : Option Bool → Json
  | none => .null
  | some b => .bool b

/-- The parsed form of an encoded header: one object whose four keys
appear in emission order. -/
def headerJson (h : Header) : Json :=
  .obj [("version".data, .num (h.version : Int)),
        ("stop_signal".data, optNatJson h.stop_signal),
        ("cont_signal".data, optNatJson h.cont_signal),
        ("click_events".data, optBoolJson h.click_events)]

/-- A position where a rendered number may stop: end of input or a
character that neither extends the digits nor starts a fraction or
exponent. -/
def numStop : List Char → Prop
  | [] => True
  | d :: _ => d.isDigit = false ∧ d ≠ '.' ∧ d ≠ 'e' ∧ d ≠ 'E'

/-- The two diagnostic lines `run` prints before killing the
subprocess when its stdout handle is unavailable. -/
def abortDiag : List Char :=
  "Failed to aquire handle to i3status' `stdout`".data ++ '\n'
    :: "Killling i3status...".data ++ ['\n']

/-! ## Helper lemmas -/

theorem takeLine_append_dropLine (s : List Char) : takeLine s ++ dropLine s = s := by
  induction s with
  | nil => rfl
  | cons c cs ih =>
    simp only [takeLine, dropLine]
    split
    · simp_all
    · simp [ih]

theorem dropLine_length_le (s : List Char) : (dropLine s).length ≤ s.length := by
  induction s with
  | nil => simp [dropLine]
  | cons c cs ih =>
    simp only [dropLine]
    split
    · simp
    · simp only [List.length_cons]; omega

theorem takeLine_core (s : List Char) :
    ∃ core, ¬ '\n' ∈ core ∧ (takeLine s = core ∨ takeLine s = core ++ ['\n']) := by
  induction s with
  | nil => exact ⟨[], by simp, Or.inl rfl⟩
  | cons c cs ih =>
    simp only [takeLine]
    split
    · exact ⟨[], by simp, Or.inr rfl⟩
    · obtain ⟨core, hmem, hor⟩ := ih
      rename_i hc
      refine ⟨c :: core, ?_, ?_⟩
      · simp only [List.mem_cons, not_or]
        exact ⟨fun hh => hc hh.symm, hmem⟩
      rcases hor with h | h
      · exact Or.inl (by rw [h])
      · exact Or.inr (by rw [h]; rfl)

theorem endsWithNL_concat (l : List Char) (c : Char) :
    endsWithNL (l ++ [c]) = (c = '\n' : Bool) := by
  simp [endsWithNL, List.getLast?_concat]

theorem endsWithNL_of_no_nl (l : List Char) (h : ¬ '\n' ∈ l) : endsWithNL l = false := by
  match l with
  | [] => rfl
  | c :: cs =>
    rcases List.eq_nil_or_concat (c :: cs) with h' | ⟨l', a, h'⟩
    · simp at h'
    · rw [List.concat_eq_append] at h'
      rw [h', endsWithNL_concat]
      simp only [decide_eq_false_iff_not]
      intro hc
      subst hc
      exact h (by rw [h']; simp)

theorem normalizeLine_eq_core (l core : List Char) (hmem : ¬ '\n' ∈ core)
    (hor : l = core ∨ l = core ++ ['\n']) : normalizeLine l = core ++ ['\n'] := by
  rcases hor with h | h
  · subst h
    simp [normalizeLine, endsWithNL_of_no_nl _ hmem]
  · subst h
    simp [normalizeLine, endsWithNL_concat]

theorem pipe_line_step (st : R3Status) (s : List Char)
    (hb : st.buffer = []) (hr : st.reader = some s) :
    st.pipe_line = .ok ()
      { st with
          reader := some (dropLine s),
          buffer := [],
          output := st.output ++ normalizeLine (takeLine s) } := by
  unfold R3Status.pipe_line R3Status.read_line
  rw [hr, hb]
  simp only [List.nil_append]
  unfold R3Status.flush_buffer normalizeLine
  split
  · rfl
  · simp [List.append_assoc]

theorem lineSplit_nil : lineSplit [] = [] := by
  rw [lineSplit]

theorem lineSplit_cons (c : Char) (cs : List Char) :
    lineSplit (c :: cs) = takeLine (c :: cs) :: lineSplit (dropLine (c :: cs)) := by
  rw [lineSplit]

theorem endsWithNL_encodeHeader (h : Header) : endsWithNL (encodeHeader h) = false := by
  unfold encodeHeader
  rw [show ("\x7d".data : List Char) = ['\x7d'] from rfl]
  rw [endsWithNL_concat]
  decide

/-! ## Claim C10 -/

/-- Claim C10: flushing an empty buffer is not skipped — it writes a
record consisting of exactly one newline character, and consequently a
`pipe_line` whose read appends zero bytes (stream at end) emits a
blank line. -/
theorem c10_empty_flush_blank_line (st : R3Status) (hb : st.buffer = []) :
    st.flush_buffer = .ok () { st with output := st.output ++ ['\n'], buffer := [] }
    ∧ (st.reader = some ([] : List Char) →
        st.pipe_line = .ok ()
          { st with
              reader := some ([] : List Char),
              buffer := [],
              output := st.output ++ ['\n'] }) := by
  constructor
  · simp [R3Status.flush_buffer, hb, endsWithNL]
  · intro hr
    have hstep := pipe_line_step st [] hb hr
    simpa [takeLine, dropLine, normalizeLine, endsWithNL] using hstep

/-- Witness for C10 at a concrete state. -/
theorem c10_empty_flush_blank_line_witness :
    ({ R3Status.new with reader := some ([] : List Char) } : R3Status).flush_buffer
      = .ok () { R3Status.new with reader := some ([] : List Char), output := ['\n'] } := by
  have h := c10_empty_flush_blank_line { R3Status.new with reader := some ([] : List Char) } rfl
  simpa using h.1

/-! ## Claim C4 -/

/-- Claim C4 (counterexample): the launcher does not forward the
supplied configuration-file path — the constructed command has an
empty argument list, and the path is not among the arguments. -/
theorem c4_config_ignored_counterexample :
    (spawn_i3status (some "/etc/r3status.conf")).args = []
    ∧ "/etc/r3status.conf" ∉ (spawn_i3status (some "/etc/r3status.conf")).args :=
  ⟨rfl, by simp [spawn_i3status]⟩

/-- Claim C4 (amended): a configuration-file path recorded by the
`config_file` setter is ignored by the subprocess launcher, which
builds the same zero-argument `i3status` command regardless. -/
theorem c4_launcher_ignores_config (cfg : String) (st : R3Status) :
    spawn_i3status ((st.set_config_file cfg).config_file) = spawn_i3status none
    ∧ (spawn_i3status ((st.set_config_file cfg).config_file)).args = [] :=
  ⟨rfl, rfl⟩

/-! ## Claim C3 -/

/-- Claim C3 (counterexample): when the stdout handle is unavailable
and the kill succeeds, `run` returns success (the kill's `Ok(())`),
not a failure. -/
theorem c3_no_stdout_ok_counterexample :
    R3Status.new.run (fun _ => .ok { stdout := none, killResult := .ok () }) 0
      = RunRes.ok { R3Status.new with output := abortDiag }
    ∧ ∀ (e : IOErr) (st' : R3Status),
        R3Status.new.run (fun _ => .ok { stdout := none, killResult := .ok () }) 0
          ≠ RunRes.err e st' := by
  have heq : R3Status.new.run (fun _ => .ok { stdout := none, killResult := .ok () }) 0
      = RunRes.ok { R3Status.new with output := abortDiag } := rfl
  refine ⟨heq, ?_⟩
  intro e st' hc
  rw [heq] at hc
  exact RunRes.noConfusion hc

/-- Claim C3 (amended): when the subprocess spawns but its stdout
handle cannot be acquired, `run` prints the two diagnostics, attempts
the kill, and returns the kill's own result — `Ok` when the kill
succeeds, an error only when the kill itself fails. -/
theorem c3_kill_result_returned (st : R3Status) (kr : Except IOErr Unit) (fuel : Nat) :
    st.run (fun _ => .ok { stdout := none, killResult := kr }) fuel
      = (match kr with
         | .ok _ => RunRes.ok { st with output := st.output ++ abortDiag }
         | .error e => RunRes.err e { st with output := st.output ++ abortDiag }) := by
  cases kr with
  | ok u =>
    cases u
    simp [R3Status.run, R3Status.printlnOut, abortDiag, List.append_assoc]
  | error e =>
    simp [R3Status.run, R3Status.printlnOut, abortDiag, List.append_assoc]

/-! ## Claim C5 -/

/-- Claim C5 (counterexample): on the valid-JSON first line lacking a
`version` field, the header exchange does not return a decode error —
it panics (the source unwraps the decode result); nothing has been
written to the output sink at the panic. -/
theorem c5_panic_counterexample :
    ({ R3Status.new with reader := some "\x7b\x7d\n".data } : R3Status).pipe_header
      = .panicked { R3Status.new with reader := some ([] : List Char), buffer := "\x7b\x7d\n".data }
    ∧ (∀ (e : IOErr) (st' : R3Status),
        ({ R3Status.new with reader := some "\x7b\x7d\n".data } : R3Status).pipe_header
          ≠ .err e st')
    ∧ ({ R3Status.new with reader := some ([] : List Char), buffer := "\x7b\x7d\n".data } : R3Status).output
        = [] := by
  have heq : ({ R3Status.new with reader := some "\x7b\x7d\n".data } : R3Status).pipe_header
      = .panicked { R3Status.new with reader := some ([] : List Char), buffer := "\x7b\x7d\n".data } := rfl
  refine ⟨heq, ?_, rfl⟩
  intro e st' hc
  rw [heq] at hc
  exact Res.noConfusion hc

/-- Claim C5 (amended): a first line that fails header decoding makes
the header exchange abort by panic (not a returned error value), and
nothing is written to the output sink: the state at the panic carries
the output unchanged. -/
theorem c5_decode_failure_panics (st : R3Status) (s : List Char)
    (hb : st.buffer = []) (hr : st.reader = some s)
    (hd : ∀ h : Header, headerDecodeStr (takeLine s) ≠ .ok h) :
    st.pipe_header = .panicked { st with buffer := takeLine s, reader := some (dropLine s) }
    ∧ ({ st with buffer := takeLine s, reader := some (dropLine s) } : R3Status).output
        = st.output := by
  refine ⟨?_, rfl⟩
  unfold R3Status.pipe_header R3Status.read_line
  rw [hr, hb]
  simp only [List.nil_append]
  cases hres : headerDecodeStr (takeLine s) with
  | error e => simp [hres]
  | ok h => exact absurd hres (hd h)

/-- Witness for C5 at the concrete malformed line. -/
theorem c5_decode_failure_panics_witness :
    ({ R3Status.new with reader := some "\x7b\x7d\n".data } : R3Status).pipe_header
      = .panicked
        { R3Status.new with
            buffer := takeLine "\x7b\x7d\n".data,
            reader := some (dropLine "\x7b\x7d\n".data) } := by
  have h := c5_decode_failure_panics { R3Status.new with reader := some "\x7b\x7d\n".data }
    "\x7b\x7d\n".data rfl rfl
    (by
      intro hh hc
      rw [show headerDecodeStr (takeLine "\x7b\x7d\n".data)
            = Except.error (DecErr.missingField "version") from rfl] at hc
      exact Except.noConfusion hc)
  exact h.1

/-! ## Claim C1 -/

/-- Claim C1 (counterexample): the header line with only a `version`
field is not forwarded as the two-field object the claim states —
absent optional fields are emitted as `null`, so the forwarded line
carries `stop_signal:null` and `cont_signal:null` as well. -/
theorem c1_nulls_counterexample :
    ({ R3Status.new with reader := some "\x7b\"version\":1\x7d\n".data } : R3Status).pipe_header
      = .ok ()
        { R3Status.new with
            reader := some ([] : List Char),
            output := "\x7b\"version\":1,\"stop_signal\":null,\"cont_signal\":null,\"click_events\":true\x7d\n".data }
    ∧ "\x7b\"version\":1,\"stop_signal\":null,\"cont_signal\":null,\"click_events\":true\x7d\n".data
        ≠ "\x7b\"version\":1,\"click_events\":true\x7d\n".data :=
  ⟨rfl, by decide⟩

/-- Claim C1 (amended): for every header line that decodes, the
forwarded header line is the re-encoding of the decoded object with
`click_events` forced to `true` and all present fields unchanged,
terminated by one newline — with absent optional fields encoded as
`null` rather than omitted. -/
theorem c1_header_forwarding (st : R3Status) (s : List Char) (h : Header)
    (hb : st.buffer = []) (hr : st.reader = some s)
    (hd : headerDecodeStr (takeLine s) = .ok h) :
    st.pipe_header = .ok ()
      { st with
          reader := some (dropLine s),
          buffer := [],
          output := st.output ++ encodeHeader { h with click_events := some true } ++ ['\n'] } := by
  unfold R3Status.pipe_header R3Status.read_line
  rw [hr, hb]
  simp only [List.nil_append]
  simp only [hd]
  unfold R3Status.flush_buffer
  rw [show ({ st with
        buffer := encodeHeader { h with click_events := some true },
        reader := some (dropLine s) } : R3Status).buffer
      = encodeHeader { h with click_events := some true } from rfl]
  rw [endsWithNL_encodeHeader]
  simp [List.append_assoc]

/-- Witness for C1 at the concrete minimal header line. -/
theorem c1_header_forwarding_witness :
    ({ R3Status.new with reader := some "\x7b\"version\":1\x7d\n".data } : R3Status).pipe_header
      = .ok ()
        { R3Status.new with
            reader := some (dropLine "\x7b\"version\":1\x7d\n".data),
            buffer := [],
            output := R3Status.new.output
              ++ encodeHeader
                   { version := 1, stop_signal := none, cont_signal := none,
                     click_events := some true }
              ++ ['\n'] } := by
  exact c1_header_forwarding { R3Status.new with reader := some "\x7b\"version\":1\x7d\n".data }
    "\x7b\"version\":1\x7d\n".data
    { version := 1, stop_signal := none, cont_signal := none, click_events := none }
    rfl rfl rfl

/-! ## Claim C8 -/

/-- Claim C8: alignment decode and encode are exact inverses on the
three tokens, and decoding any other string fails with an error that
names the invalid token. -/
theorem c8_alignment_codec :
    (∀ a : Alignment, Alignment.decode (Alignment.encode a) = .ok a)
    ∧ (∀ t : List Char, (t = "right".data ∨ t = "left".data ∨ t = "center".data) →
        ∃ a : Alignment, Alignment.decode (.str t) = .ok a ∧ Alignment.encode a = .str t)
    ∧ (∀ s : List Char, s ≠ "right".data → s ≠ "left".data → s ≠ "center".data →
        Alignment.decode (.str s)
          = .error (.application ("`".data ++ s ++ "` is not a valid alignment".data))) := by
  refine ⟨?_, ?_, ?_⟩
  · intro a
    cases a <;> rfl
  · intro t ht
    rcases ht with h | h | h <;> subst h
    · exact ⟨.Right, rfl, rfl⟩
    · exact ⟨.Left, rfl, rfl⟩
    · exact ⟨.Center, rfl, rfl⟩
  · intro s h1 h2 h3
    show (if s = "right".data then Except.ok Alignment.Right
      else if s = "left".data then Except.ok Alignment.Left
      else if s = "center".data then Except.ok Alignment.Center
      else Except.error (DecErr.application ("`".data ++ s ++ "` is not a valid alignment".data)))
      = Except.error (DecErr.application ("`".data ++ s ++ "` is not a valid alignment".data))
    rw [if_neg h1, if_neg h2, if_neg h3]

/-- Witness for C8: the invalid token branch at a concrete token, and
one concrete round trip. -/
theorem c8_alignment_codec_witness :
    Alignment.decode (.str "up".data)
      = .error (.application ("`".data ++ "up".data ++ "` is not a valid alignment".data))
    ∧ Alignment.decode (Alignment.encode .Right) = .ok .Right :=
  ⟨c8_alignment_codec.2.2 "up".data (by decide) (by decide) (by decide),
   c8_alignment_codec.1 .Right⟩

/-! ## Claim C2 -/

/-- Claim C2 (refuting theorem): at end of stream — the subprocess has
exited — `read_line` returns `Ok(0)`, not an error, and the
steady-state loop never exits: after any number of iterations it is
still spinning, having emitted one blank line per iteration. -/
theorem c2_eof_read_ok_and_loop_spins (st : R3Status)
    (hr : st.reader = some ([] : List Char)) (hb : st.buffer = []) :
    st.read_line = .ok 0 st
    ∧ ∀ k : Nat, runLoop k st = .spinning { st with output := st.output ++ List.replicate k '\n' } := by
  obtain ⟨cf, sl, rd, out, buf⟩ := st
  simp only at hr hb
  subst hr
  subst hb
  constructor
  · simp [R3Status.read_line, takeLine, dropLine]
  · intro k
    dsimp only
    induction k generalizing out with
    | zero => simp [runLoop]
    | succ k ih =>
      have hstep := pipe_line_step ⟨cf, sl, some [], out, []⟩ [] rfl rfl
      simp [takeLine, dropLine, normalizeLine, endsWithNL] at hstep
      simp only [runLoop, hstep]
      rw [ih (out ++ ['\n'])]
      simp [List.replicate_succ, List.append_assoc]

/-- Witness for C2 at a concrete end-of-stream state, observing two
loop iterations. -/
theorem c2_eof_read_ok_and_loop_spins_witness :
    ({ R3Status.new with reader := some ([] : List Char) } : R3Status).read_line
      = .ok 0 { R3Status.new with reader := some ([] : List Char) }
    ∧ runLoop 2 { R3Status.new with reader := some ([] : List Char) }
      = .spinning { R3Status.new with reader := some ([] : List Char), output := ['\n', '\n'] } := by
  have h := c2_eof_read_ok_and_loop_spins { R3Status.new with reader := some ([] : List Char) } rfl rfl
  refine ⟨h.1, ?_⟩
  have h2 := h.2 2
  simpa using h2

/-! ## Claim C9 -/

/-- Claim C9: `write_msg` encodes a one-element array holding a
default-valued block whose `full_text` is the message, flushes it as
one newline-terminated record, then writes exactly one comma with no
trailing newline. -/
theorem c9_write_msg_record_then_comma (st : R3Status) (msg : List Char) :
    st.write_msg msg = .ok ()
      { st with
          buffer := [],
          output := st.output
            ++ encodeBlockVec [{ defaultBlock with full_text := msg }]
            ++ ['\n'] ++ [','] }
    ∧ encodeBlockVec [{ defaultBlock with full_text := msg }]
        = '[' :: encodeBlock { defaultBlock with full_text := msg } ++ [']'] := by
  have hnl : endsWithNL (encodeBlockVec [{ defaultBlock with full_text := msg }]) = false := by
    unfold encodeBlockVec
    rw [endsWithNL_concat]
    decide
  constructor
  · unfold R3Status.write_msg R3Status.flush_buffer R3Status.write_str
    simp only [hnl]
    simp [List.append_assoc]
  · simp [encodeBlockVec]

/-! ## Claim C6 -/

/-- Claim C6: steady-state forwarding is order- and volume-preserving.
For the sequence of lines the stream splits into, iterating
`pipe_line` once per line succeeds, consumes the whole stream, and
appends to the output exactly the lines in order, each byte-identical
to its input except that every forwarded record is terminated by
exactly one newline — in particular a final record lacking a trailing
newline is forwarded in full with one newline appended, and no data is
dropped (the split lines reassemble to the exact input stream). -/
theorem c6_steady_state_forwarding (s : List Char) (st : R3Status)
    (hb : st.buffer = []) (hr : st.reader = some s) :
    ∃ st2, pipeLines (lineSplit s).length st = .ok () st2
      ∧ st2.output = st.output ++ ((lineSplit s).map normalizeLine).flatten
      ∧ st2.buffer = [] ∧ st2.reader = some ([] : List Char)
      ∧ (lineSplit s).flatten = s
      ∧ ∀ l ∈ lineSplit s, ∃ core, ¬ '\n' ∈ core ∧ (l = core ∨ l = core ++ ['\n'])
          ∧ normalizeLine l = core ++ ['\n'] := by
  have main : ∀ (n : Nat) (s : List Char), s.length ≤ n → ∀ st : R3Status,
      st.buffer = [] → st.reader = some s →
      ∃ st2, pipeLines (lineSplit s).length st = .ok () st2
        ∧ st2.output = st.output ++ ((lineSplit s).map normalizeLine).flatten
        ∧ st2.buffer = [] ∧ st2.reader = some ([] : List Char)
        ∧ (lineSplit s).flatten = s
        ∧ ∀ l ∈ lineSplit s, ∃ core, ¬ '\n' ∈ core ∧ (l = core ∨ l = core ++ ['\n'])
            ∧ normalizeLine l = core ++ ['\n'] := by
    intro n
    induction n with
    | zero =>
      intro s hs st hb hr
      have hnil : s = [] := List.eq_nil_of_length_eq_zero (Nat.le_zero.mp hs)
      subst hnil
      refine ⟨st, ?_, ?_, hb, hr, ?_, ?_⟩
      · rw [lineSplit_nil]; rfl
      · rw [lineSplit_nil]; simp
      · rw [lineSplit_nil]; rfl
      · rw [lineSplit_nil]; intro l hl; simp at hl
    | succ n ihn =>
      intro s hs st hb hr
      cases s with
      | nil =>
        refine ⟨st, ?_, ?_, hb, hr, ?_, ?_⟩
        · rw [lineSplit_nil]; rfl
        · rw [lineSplit_nil]; simp
        · rw [lineSplit_nil]; rfl
        · rw [lineSplit_nil]; intro l hl; simp at hl
      | cons c cs =>
        have hstep := pipe_line_step st (c :: cs) hb hr
        have hlen : (dropLine (c :: cs)).length ≤ n := by
          have h1 := dropLine_length_le cs
          have h2 : (dropLine (c :: cs)).length ≤ cs.length := by
            simp only [dropLine]
            split
            · exact Nat.le_refl _
            · exact dropLine_length_le cs
          simp only [List.length_cons] at hs
          omega
        obtain ⟨st2, h1, h2, h3, h4, h5, h6⟩ := ihn (dropLine (c :: cs)) hlen
          { st with
              reader := some (dropLine (c :: cs)),
              buffer := [],
              output := st.output ++ normalizeLine (takeLine (c :: cs)) }
          rfl rfl
        rw [lineSplit_cons]
        refine ⟨st2, ?_, ?_, h3, h4, ?_, ?_⟩
        · simp only [List.length_cons, pipeLines, hstep]
          exact h1
        · rw [h2]
          simp [List.append_assoc]
        · simp only [List.flatten_cons, h5]
          exact takeLine_append_dropLine (c :: cs)
        · intro l hl
          rcases List.mem_cons.mp hl with h | h
          · subst h
            obtain ⟨core, hmem, hor⟩ := takeLine_core (c :: cs)
            exact ⟨core, hmem, hor, normalizeLine_eq_core _ core hmem hor⟩
          · exact h6 l h
  exact main s.length s (Nat.le_refl _) st hb hr

/-- Witness for C6 on a concrete stream whose final record lacks a
trailing newline. -/
theorem c6_steady_state_forwarding_witness :
    ∃ st2, pipeLines (lineSplit "[\x7bx\x7d]\n,[\x7by\x7d]".data).length
        { R3Status.new with reader := some "[\x7bx\x7d]\n,[\x7by\x7d]".data } = .ok () st2
      ∧ st2.output = ({ R3Status.new with reader := some "[\x7bx\x7d]\n,[\x7by\x7d]".data } : R3Status).output
          ++ ((lineSplit "[\x7bx\x7d]\n,[\x7by\x7d]".data).map normalizeLine).flatten
      ∧ st2.buffer = [] ∧ st2.reader = some ([] : List Char)
      ∧ (lineSplit "[\x7bx\x7d]\n,[\x7by\x7d]".data).flatten = "[\x7bx\x7d]\n,[\x7by\x7d]".data
      ∧ ∀ l ∈ lineSplit "[\x7bx\x7d]\n,[\x7by\x7d]".data,
          ∃ core, ¬ '\n' ∈ core ∧ (l = core ∨ l = core ++ ['\n'])
            ∧ normalizeLine l = core ++ ['\n'] :=
  c6_steady_state_forwarding "[\x7bx\x7d]\n,[\x7by\x7d]".data
    { R3Status.new with reader := some "[\x7bx\x7d]\n,[\x7by\x7d]".data } rfl rfl

/-! ## Round-trip machinery for Claim C7 -/

theorem digitChar_facts (d : Nat) (h : d < 10) :
    (digitChar d).isDigit = true ∧ digitVal (digitChar d) = d ∧ isWs (digitChar d) = false := by
  interval_cases d <;> exact ⟨by decide, by decide, by decide⟩

theorem digitChar_ne_zero (d : Nat) (h1 : 1 ≤ d) (h2 : d < 10) : digitChar d ≠ '0' := by
  interval_cases d <;> decide

theorem digitChar_not_special (d : Nat) (h : d < 10) :
    digitChar d ≠ '\x7b' ∧ digitChar d ≠ '[' ∧ digitChar d ≠ '"' ∧ digitChar d ≠ 't'
      ∧ digitChar d ≠ 'f' ∧ digitChar d ≠ 'n' ∧ digitChar d ≠ '-' := by
  interval_cases d <;>
    exact ⟨by decide, by decide, by decide, by decide, by decide, by decide, by decide⟩

theorem natCharsCore_mono (n : Nat) : ∀ f1 f2 : Nat, n < f1 → n < f2 →
    natCharsCore f1 n = natCharsCore f2 n := by
  induction n using Nat.strong_induction_on with
  | _ n ih =>
    intro f1 f2 h1 h2
    obtain ⟨a, rfl⟩ : ∃ a, f1 = a + 1 := ⟨f1 - 1, by omega⟩
    obtain ⟨b, rfl⟩ : ∃ b, f2 = b + 1 := ⟨f2 - 1, by omega⟩
    simp only [natCharsCore]
    split
    · rfl
    · rename_i hge
      have hdiv : n / 10 < n := Nat.div_lt_self (by omega) (by omega)
      rw [ih (n / 10) hdiv a b (by omega) (by omega)]

theorem natChars_spec (n : Nat) :
    ∃ ds : List Nat, natChars n = ds.map digitChar ∧ ds ≠ [] ∧ (∀ d ∈ ds, d < 10)
      ∧ (∀ acc : Nat, ds.foldl (fun a d => a * 10 + d) acc = acc * 10 ^ ds.length + n)
      ∧ (1 ≤ n → ∀ d0, ds.head? = some d0 → 1 ≤ d0)
      ∧ (n = 0 → ds = [0]) := by
  induction n using Nat.strong_induction_on with
  | _ n ih =>
    by_cases h10 : n < 10
    · refine ⟨[n], ?_, by simp, by simpa using h10, ?_, ?_, ?_⟩
      · show natCharsCore (n + 1) n = _
        simp only [natCharsCore]
        rw [if_pos h10]
        simp
      · intro acc
        simp [pow_one]
      · intro h1 d0 hd0
        simp only [List.head?_cons, Option.some.injEq] at hd0
        omega
      · intro h0
        subst h0
        rfl
    · have hdiv : n / 10 < n := Nat.div_lt_self (by omega) (by omega)
      obtain ⟨ds, hmap, hne, hlt, hfold, hhead, _⟩ := ih (n / 10) hdiv
      refine ⟨ds ++ [n % 10], ?_, by simp, ?_, ?_, ?_, by omega⟩
      · show natCharsCore (n + 1) n = _
        simp only [natCharsCore]
        rw [if_neg h10]
        have hm : natCharsCore n (n / 10) = natChars (n / 10) :=
          natCharsCore_mono (n / 10) n (n / 10 + 1) (by omega) (by omega)
        rw [hm, hmap]
        simp
      · intro d hd
        rcases List.mem_append.mp hd with h | h
        · exact hlt d h
        · simp only [List.mem_singleton] at h
          subst h
          exact Nat.mod_lt _ (by omega)
      · intro acc
        rw [List.foldl_append]
        simp only [List.foldl_cons, List.foldl_nil]
        rw [hfold acc]
        rw [List.length_append, List.length_singleton, pow_succ]
        have hdm : 10 * (n / 10) + n % 10 = n := Nat.div_add_mod n 10
        ring_nf
        omega
      · intro h1 d0 hd0
        obtain ⟨dh, dt, rfl⟩ := List.exists_cons_of_ne_nil hne
        simp only [List.cons_append, List.head?_cons, Option.some.injEq] at hd0
        subst hd0
        exact hhead (by omega) _ rfl

theorem parseDigits_digits (ds : List Nat) (rest : List Char) (acc : Nat)
    (h : ∀ d ∈ ds, d < 10)
    (hrest : ∀ r, rest.head? = some r → r.isDigit = false) :
    parseDigits (ds.map digitChar ++ rest) acc
      = (ds.foldl (fun a d => a * 10 + d) acc, rest) := by
  induction ds generalizing acc with
  | nil =>
    simp only [List.map_nil, List.nil_append, List.foldl_nil]
    cases rest with
    | nil => rfl
    | cons r rs =>
      have hr := hrest r rfl
      simp [parseDigits, hr]
  | cons d dt ihd =>
    have hd := h d (by simp)
    have hfacts := digitChar_facts d hd
    simp only [List.map_cons, List.cons_append, List.foldl_cons]
    rw [parseDigits]
    rw [if_pos hfacts.1, hfacts.2.1]
    exact ihd (acc * 10 + d) (fun x hx => h x (by simp [hx]))

/-- `numStop` holds after a comma. -/
theorem numStop_comma (x : List Char) : numStop (',' :: x) :=
  ⟨by decide, by decide, by decide, by decide⟩

/-- `numStop` holds after a closing brace. -/
theorem numStop_rbrace (x : List Char) : numStop ('\x7d' :: x) :=
  ⟨by decide, by decide, by decide, by decide⟩

theorem parseUNumber_natChars (n : Nat) (rest : List Char) (hstop : numStop rest) :
    parseUNumber (natChars n ++ rest) = some (n, rest) := by
  obtain ⟨ds, hmap, hne, hlt, hfold, hhead, hzero⟩ := natChars_spec n
  have hrestDigit : ∀ r, rest.head? = some r → r.isDigit = false := by
    intro r hr
    cases rest with
    | nil => simp at hr
    | cons x xs =>
      simp only [List.head?_cons, Option.some.injEq] at hr
      subst hr
      exact hstop.1
  have hcheck : checkNoFrac n rest = some (n, rest) := by
    cases rest with
    | nil => rfl
    | cons x xs =>
      obtain ⟨h1, h2, h3, h4⟩ := hstop
      simp [checkNoFrac, h2, h3, h4]
  rcases Nat.eq_zero_or_pos n with h0 | hpos
  · subst h0
    rw [hzero rfl] at hmap
    rw [hmap]
    show parseUNumber ('0' :: rest) = some (0, rest)
    cases rest with
    | nil => rfl
    | cons x xs =>
      obtain ⟨h1, h2, h3, h4⟩ := hstop
      simp [parseUNumber, checkNoFrac, h1, h2, h3, h4]
  · obtain ⟨d0, dt, rfl⟩ := List.exists_cons_of_ne_nil hne
    have hd0lt : d0 < 10 := hlt d0 (by simp)
    have hd0pos : 1 ≤ d0 := hhead hpos d0 rfl
    rw [hmap]
    simp only [List.map_cons, List.cons_append]
    have hne0 : digitChar d0 ≠ '0' := digitChar_ne_zero d0 hd0pos hd0lt
    have hfacts := digitChar_facts d0 hd0lt
    simp only [parseUNumber]
    rw [if_neg hne0, if_pos hfacts.1, hfacts.2.1]
    rw [parseDigits_digits dt rest d0 (fun x hx => hlt x (by simp [hx])) hrestDigit]
    have hv : dt.foldl (fun a d => a * 10 + d) d0 = n := by
      have h1 := hfold 0
      simp only [List.foldl_cons, Nat.zero_mul, Nat.zero_add] at h1
      simpa using h1
    simp only [hv]
    exact hcheck

theorem parseValue_digitChar (g : Nat) (d : Nat) (hd : d < 10) (cs : List Char) :
    parseValue (g + 1) (digitChar d :: cs) = parseNumber (digitChar d :: cs) := by
  interval_cases d <;> rfl

theorem parseValue_natChars (g : Nat) (n : Nat) (rest : List Char) (hstop : numStop rest) :
    parseValue (g + 1) (natChars n ++ rest) = some (.num (n : Int), rest) := by
  obtain ⟨ds, hmap, hne, hlt, _, _, _⟩ := natChars_spec n
  obtain ⟨d0, dt, rfl⟩ := List.exists_cons_of_ne_nil hne
  have hd0 : d0 < 10 := hlt d0 (by simp)
  have hspec := digitChar_not_special d0 hd0
  have hpn : parseNumber (natChars n ++ rest) = some (.num (n : Int), rest) := by
    unfold parseNumber
    split
    · rename_i r heq
      rw [hmap] at heq
      simp only [List.map_cons, List.cons_append] at heq
      injection heq with hc _
      exact absurd hc hspec.2.2.2.2.2.2
    · rw [parseUNumber_natChars n rest hstop]
  rw [hmap]
  simp only [List.map_cons, List.cons_append]
  rw [parseValue_digitChar g d0 hd0]
  rw [show (digitChar d0 :: (dt.map digitChar ++ rest) : List Char)
      = natChars n ++ rest from by rw [hmap]; rfl]
  exact hpn

theorem parseValue_objOpen (g : Nat) (tail : List Char) :
    parseValue (g + 1) ('\x7b' :: '"' :: tail) = parseObjItems g ('"' :: tail) [] := rfl

theorem parseObjItems_key_version (g : Nat) (tail : List Char) (acc : List (List Char × Json)) :
    parseObjItems (g + 1)
        ('"' :: 'v' :: 'e' :: 'r' :: 's' :: 'i' :: 'o' :: 'n' :: '"' :: ':' :: tail) acc
      = match parseValue g tail with
        | some (val, rest3) =>
          (match skipWs rest3 with
           | ',' :: rest4 =>
             parseObjItems g rest4 (insertKV ['v', 'e', 'r', 's', 'i', 'o', 'n'] val acc)
           | '\x7d' :: rest4 =>
             some (.obj (insertKV ['v', 'e', 'r', 's', 'i', 'o', 'n'] val acc), rest4)
           | _ => none)
        | none => none := rfl

theorem parseObjItems_key_stop (g : Nat) (tail : List Char) (acc : List (List Char × Json)) :
    parseObjItems (g + 1)
        ('"' :: 's' :: 't' :: 'o' :: 'p' :: '_' :: 's' :: 'i' :: 'g' :: 'n' :: 'a' :: 'l'
          :: '"' :: ':' :: tail) acc
      = match parseValue g tail with
        | some (val, rest3) =>
          (match skipWs rest3 with
           | ',' :: rest4 =>
             parseObjItems g rest4
               (insertKV ['s', 't', 'o', 'p', '_', 's', 'i', 'g', 'n', 'a', 'l'] val acc)
           | '\x7d' :: rest4 =>
             some (.obj (insertKV ['s', 't', 'o', 'p', '_', 's', 'i', 'g', 'n', 'a', 'l'] val acc),
               rest4)
           | _ => none)
        | none => none := rfl

theorem parseObjItems_key_cont (g : Nat) (tail : List Char) (acc : List (List Char × Json)) :
    parseObjItems (g + 1)
        ('"' :: 'c' :: 'o' :: 'n' :: 't' :: '_' :: 's' :: 'i' :: 'g' :: 'n' :: 'a' :: 'l'
          :: '"' :: ':' :: tail) acc
      = match parseValue g tail with
        | some (val, rest3) =>
          (match skipWs rest3 with
           | ',' :: rest4 =>
             parseObjItems g rest4
               (insertKV ['c', 'o', 'n', 't', '_', 's', 'i', 'g', 'n', 'a', 'l'] val acc)
           | '\x7d' :: rest4 =>
             some (.obj (insertKV ['c', 'o', 'n', 't', '_', 's', 'i', 'g', 'n', 'a', 'l'] val acc),
               rest4)
           | _ => none)
        | none => none := rfl

theorem parseObjItems_key_click (g : Nat) (tail : List Char) (acc : List (List Char × Json)) :
    parseObjItems (g + 1)
        ('"' :: 'c' :: 'l' :: 'i' :: 'c' :: 'k' :: '_' :: 'e' :: 'v' :: 'e' :: 'n' :: 't' :: 's'
          :: '"' :: ':' :: tail) acc
      = match parseValue g tail with
        | some (val, rest3) =>
          (match skipWs rest3 with
           | ',' :: rest4 =>
             parseObjItems g rest4
               (insertKV ['c', 'l', 'i', 'c', 'k', '_', 'e', 'v', 'e', 'n', 't', 's'] val acc)
           | '\x7d' :: rest4 =>
             some
               (.obj (insertKV ['c', 'l', 'i', 'c', 'k', '_', 'e', 'v', 'e', 'n', 't', 's'] val acc),
                rest4)
           | _ => none)
        | none => none := rfl

theorem parseValue_version_field (g : Nat) (v : Nat) (X : List Char) :
    parseValue (g + 1) (natChars v ++ (",\"stop_signal\":".data ++ X))
      = some (.num (v : Int), ",\"stop_signal\":".data ++ X) :=
  parseValue_natChars g v _ (numStop_comma _)

theorem parseValue_encodeOptNat (g : Nat) (o : Option Nat) (rest : List Char)
    (hstop : numStop rest) :
    parseValue (g + 1) (encodeOptNat o ++ rest) = some (optNatJson o, rest) := by
  cases o with
  | none => rfl
  | some n => exact parseValue_natChars g n rest hstop

theorem parseValue_encodeOptBool (g : Nat) (o : Option Bool) (rest : List Char) :
    parseValue (g + 1) (encodeOptBool o ++ rest) = some (optBoolJson o, rest) := by
  cases o with
  | none => rfl
  | some b => cases b <;> rfl

/-- Parsing the compact encoding of any header yields the expected
flat object and consumes the whole input. -/
theorem parse_encodeHeader (h : Header) (f : Nat) :
    parseValue (f + 9) (encodeHeader h) = some (headerJson h, []) := by
  obtain ⟨v, ss, cs2, ce⟩ := h
  simp only [encodeHeader, List.append_assoc]
  change parseValue ((f + 8) + 1)
    ('\x7b' :: '"' :: ('v' :: 'e' :: 'r' :: 's' :: 'i' :: 'o' :: 'n' :: '"' :: ':' ::
      (natChars v ++ _))) = _
  rw [parseValue_objOpen]
  rw [show f + 8 = (f + 7) + 1 from rfl]
  rw [parseObjItems_key_version]
  rw [show f + 7 = (f + 6) + 1 from rfl]
  rw [parseValue_version_field]
  change parseObjItems ((f + 6) + 1)
    ('"' :: 's' :: 't' :: 'o' :: 'p' :: '_' :: 's' :: 'i' :: 'g' :: 'n' :: 'a' :: 'l' :: '"' :: ':' ::
      (encodeOptNat ss ++ (',' :: _))) _ = _
  rw [parseObjItems_key_stop]
  rw [show f + 6 = (f + 5) + 1 from rfl]
  rw [parseValue_encodeOptNat (f + 5) ss _ (numStop_comma _)]
  change parseObjItems ((f + 5) + 1)
    ('"' :: 'c' :: 'o' :: 'n' :: 't' :: '_' :: 's' :: 'i' :: 'g' :: 'n' :: 'a' :: 'l' :: '"' :: ':' ::
      (encodeOptNat cs2 ++ (',' :: _))) _ = _
  rw [parseObjItems_key_cont]
  rw [show f + 5 = (f + 4) + 1 from rfl]
  rw [parseValue_encodeOptNat (f + 4) cs2 _ (numStop_comma _)]
  change parseObjItems ((f + 4) + 1)
    ('"' :: 'c' :: 'l' :: 'i' :: 'c' :: 'k' :: '_' :: 'e' :: 'v' :: 'e' :: 'n' :: 't' :: 's'
      :: '"' :: ':' :: (encodeOptBool ce ++ _)) _ = _
  rw [parseObjItems_key_click]
  rw [show f + 4 = (f + 3) + 1 from rfl]
  rw [parseValue_encodeOptBool (f + 3) ce]
  rfl

/-- Decoding the parsed form of an encoded header recovers the header:
null-valued option fields decode to absent, numbers and booleans to
their values. -/
theorem decode_headerJson (h : Header) : jsonDecodeHeader (headerJson h) = .ok h := by
  obtain ⟨v, ss, cs2, ce⟩ := h
  rcases ss with _ | m <;> rcases cs2 with _ | k <;> rcases ce with _ | b <;>
    simp +decide [jsonDecodeHeader, headerJson, readStructField, lookupKV, optNatJson,
      optBoolJson, jsonDecodeUsize, jsonDecodeOpt, jsonDecodeBool, Bind.bind, Except.bind,
      Except.pure, Int.toNat_natCast] <;>
    rfl

/-! ## Claim C7 -/

/-- Claim C7: for every header with optional fields present or absent
in any combination, decoding the JSON encoding of the header with
`click_events` set to `Some(true)` yields a header equal in every
field. -/
theorem c7_header_roundtrip (h : Header) :
    headerDecodeStr (encodeHeader { h with click_events := some true })
      = .ok { h with click_events := some true } := by
  unfold headerDecodeStr jsonFromStr
  rw [show (encodeHeader { h with click_events := some true }).length + 16
      = ((encodeHeader { h with click_events := some true }).length + 7) + 9 from rfl]
  rw [parse_encodeHeader]
  change jsonDecodeHeader (headerJson { h with click_events := some true }) = _
  exact decode_headerJson _
